import Mathlib

/-!
Verification of the TypeScript client generator of the `solpm` package
manager (src/commands/codegen.rs and src/commands/types.rs), as a shallow
embedding in Lean.

Modelling conventions:
* Rust `String`/`&str` values are Lean `String`s; iteration over `chars()`
  is iteration over `String.data : List Char` (both are sequences of
  Unicode scalar values).
* `char::to_uppercase` is modelled by `rustToUppercase`, exact on the
  ASCII range and on the sharp s (the mapping relevant here whose
  uppercase expansion has more than one character); all other characters
  are mapped to themselves.
* `Vec<u8>` byte buffers are `List Nat` (each entry below 256 in any
  value produced by the JSON deserializer).
* `serde_json::Value` is modelled by `Json`: strings, objects (association
  lists with unique keys, looked up by `List.lookup`), and a single
  constructor `other` for every remaining JSON shape, which
  `get_type_string` treats uniformly.
* Fallible Rust functions returning `Result<T>` become
  `Except SolanaPmError T`; the `?` operator becomes monadic matching.
* The `HashSet<String>` of already-generated PDA names is a `List String`
  queried with `contains` (only membership is ever used).
* File-system effects of the orchestrator `generate_typescript_client`
  are abstracted: the configuration file and the per-program IDL files it
  reads become the input list of (program name, program metadata, parsed
  IDL) triples in iteration order, and each `fs::write` becomes an entry
  of the returned list of (client file path, contents) pairs.  The early
  `return Err(..)` / `?` exits of the loop become the returned
  `Option SolanaPmError`, which ends the list of written files.
-/

namespace Solpm

/-- Model of `serde_json::Value` as used by `IdlArg::get_type_string`:
string values, objects, and `other` for all remaining JSON shapes
(null, booleans, numbers, arrays), which that function never
distinguishes. -/
inductive Json where
  | str (s : String)
  | obj (fields : List (String × Json))
  | other

/-- Model of `Value::as_str`: the string content when the value is a JSON
string, `none` otherwise. -/
def jsonAsStr : Json → Option String
  | .str s => some s
  | _ => none

/-- Error type from src/error.rs.  The `Io`, `Json` and `Http` variants
wrap foreign error objects of the excluded I/O collaborators and are not
needed by the generator core, so they are omitted from the model. -/
inductive SolanaPmError where
  | configNotFound (msg : String)
  | programNotFound (msg : String)
  | invalidIdl (msg : String)
  | uploadFailed (msg : String)
  | invalidPath (msg : String)
  | dataMissing (msg : String)
  deriving DecidableEq, Repr

/-- Structure `IdlArg` from src/commands/types.rs: an instruction argument with a
name and a polymorphic type descriptor. -/
structure IdlArg where
  name : String
  arg_type : Json

/-- Structure `IdlSeed` from src/commands/types.rs. -/
structure IdlSeed where
  kind : String
  value : Option (List Nat)
  path : Option String
  account : Option String

/-- Structure `IdlPda` from src/commands/types.rs. -/
structure IdlPda where
  seeds : List IdlSeed

/-- Structure `IdlAccount` from src/commands/types.rs, with both the new
(`writable`/`signer`) and the legacy (`isMut`/`isSigner`) role fields. -/
structure IdlAccount where
  name : String
  writable : Option Bool
  signer : Option Bool
  is_mut : Option Bool
  is_signer : Option Bool
  address : Option String
  pda : Option IdlPda

/-- Structure `IdlInstruction` from src/commands/types.rs. -/
structure IdlInstruction where
  name : String
  accounts : List IdlAccount
  args : List IdlArg

/-- Structure `Idl` from src/commands/types.rs.  The four trailing sections are
never consumed by the generator. -/
structure Idl where
  instructions : List IdlInstruction
  accounts : Option (List Json)
  events : Option (List Json)
  errors : Option (List Json)
  types : Option (List Json)

/-- Structure `Program` from src/commands/types.rs: per-program metadata from the
configuration file. -/
structure Program where
  version : String
  program_id : String
  network : String
  idl_path : Option String

/-- Constant `MAINNET_RPC_URL` from src/commands/constants.rs. -/
def MAINNET_RPC_URL : String := "https://api.mainnet-beta.solana.com"

/-- Constant `DEVNET_RPC_URL` from src/commands/constants.rs. -/
def DEVNET_RPC_URL : String := "https://api.devnet.solana.com"

/-- Constant `PROGRAM_CLIENT_DIR` from src/commands/constants.rs. -/
def PROGRAM_CLIENT_DIR : String := "./program/client"

/-- Constant `SYSTEM_PROGRAM_ID` from src/commands/constants.rs. -/
def SYSTEM_PROGRAM_ID : String := "11111111111111111111111111111111"

/-- Model of `str::split(sep)` on the character level: `splitChar sep l`
is the list of maximal separator-free runs of `l`, one more run than
there are separators (so the empty input yields one empty run, exactly
as Rust's `split`). -/
def splitChar (sep : Char) : List Char → List (List Char)
  | [] => [[]]
  | c :: cs =>
    if c = sep then [] :: splitChar sep cs
    else
      match splitChar sep cs with
      | [] => [[c]]
      | w :: ws => (c :: w) :: ws

/-- Model of `char::to_uppercase` (an iterator of characters): exact on
the ASCII letters and on the sharp s 'ß' (whose uppercase expansion is
the two-character "SS", as in the Unicode mapping Rust applies); every
other character is mapped to itself. -/
def rustToUppercase (c : Char) : List Char :=
  if 'a' ≤ c ∧ c ≤ 'z' then [Char.ofNat (c.toNat - 32)]
  else if c = 'ß' then ['S', 'S']
  else [c]

/-- Model of `c.to_uppercase().next().unwrap()`: the first character of
the uppercase expansion (the expansion is never empty). -/
def rustUpperFirst (c : Char) : Char :=
  (rustToUppercase c).headD c

/-- Character loop of `snake_to_camel` (src/commands/codegen.rs lines
375-391): an underscore is dropped and arms the `capitalize_next` flag;
a character seen with the flag armed is replaced by the first character
of its uppercase expansion; all other characters are copied unchanged. -/
def camelAux : List Char → Bool → List Char
  | [], _ => []
  | c :: cs, capitalize_next =>
    if c = '_' then camelAux cs true
    else if capitalize_next then rustUpperFirst c :: camelAux cs false
    else c :: camelAux cs false

/-- Function `snake_to_camel` from src/commands/codegen.rs. -/
def snake_to_camel (s : String) : String :=
  ⟨camelAux s.data false⟩

/-- Per-word step of `snake_to_pascal`: the first character is replaced
by its full uppercase expansion (`first.to_uppercase().collect::<String>()`),
the rest of the word is kept. -/
def capitalizeWord : List Char → List Char
  | [] => []
  | c :: cs => rustToUppercase c ++ cs

/-- Function `snake_to_pascal` from src/commands/codegen.rs: split on '_',
capitalize every word, concatenate. -/
def snake_to_pascal (s : String) : String :=
  ⟨((splitChar '_' s.data).map capitalizeWord).flatten⟩

/-- Hexadecimal digit for a value below 16, lowercase as produced by
`hex::encode`. -/
def hexDigit (n : Nat) : Char :=
  if n < 10 then Char.ofNat (48 + n) else Char.ofNat (87 + n)

/-- Model of `hex::encode`: two lowercase hex digits per byte. -/
def hexEncode (bytes : List Nat) : String :=
  ⟨bytes.foldr (fun b acc => hexDigit (b / 16) :: hexDigit (b % 16) :: acc) []⟩

/-- Strict UTF-8 decoder, modelling the validation performed by
`String::from_utf8`: rejects continuation-byte errors, overlong
encodings, surrogate code points and values above 0x10FFFF. -/
def utf8Decode : List Nat → Option (List Char)
  | [] => some []
  | b :: rest =>
    if b < 0x80 then (utf8Decode rest).map (fun cs => Char.ofNat b :: cs)
    else if b < 0xC2 then none
    else if b ≤ 0xDF then
      match rest with
      | b1 :: rest1 =>
        if 0x80 ≤ b1 ∧ b1 ≤ 0xBF then
          (utf8Decode rest1).map (fun cs =>
            Char.ofNat ((b - 0xC0) * 0x40 + (b1 - 0x80)) :: cs)
        else none
      | [] => none
    else if b ≤ 0xEF then
      match rest with
      | b1 :: b2 :: rest2 =>
        if (if b = 0xE0 then 0xA0 else 0x80) ≤ b1 ∧
            b1 ≤ (if b = 0xED then 0x9F else 0xBF) ∧
            0x80 ≤ b2 ∧ b2 ≤ 0xBF then
          (utf8Decode rest2).map (fun cs =>
            Char.ofNat ((b - 0xE0) * 0x1000 + (b1 - 0x80) * 0x40 + (b2 - 0x80)) :: cs)
        else none
      | _ => none
    else if b ≤ 0xF4 then
      match rest with
      | b1 :: b2 :: b3 :: rest3 =>
        if (if b = 0xF0 then 0x90 else 0x80) ≤ b1 ∧
            b1 ≤ (if b = 0xF4 then 0x8F else 0xBF) ∧
            0x80 ≤ b2 ∧ b2 ≤ 0xBF ∧ 0x80 ≤ b3 ∧ b3 ≤ 0xBF then
          (utf8Decode rest3).map (fun cs =>
            Char.ofNat ((b - 0xF0) * 0x40000 + (b1 - 0x80) * 0x1000 +
              (b2 - 0x80) * 0x40 + (b3 - 0x80)) :: cs)
        else none
      | _ => none
    else none

/-- Function `bytes_to_string` from src/commands/codegen.rs: UTF-8 decoding with a
hex-encoded fallback for invalid byte sequences. -/
def bytes_to_string (bytes : List Nat) : String :=
  match utf8Decode bytes with
  | some cs => ⟨cs⟩
  | none => "0x" ++ hexEncode bytes

/-- Function `extract_param_from_path` from src/commands/codegen.rs: the last
dot-separated component of the path (`split('.').last().unwrap()`;
`split` always yields at least one component). -/
def extract_param_from_path (path : String) : String :=
  ⟨(splitChar '.' path.data).getLastD []⟩

/-- Method `IdlArg::get_type_string` from src/commands/types.rs: a string type
stands for itself; an object type is collapsed to `option_...` or
`defined_...` when it carries those keys, and to "unknown" otherwise;
every other JSON shape is "unknown". -/
def IdlArg.get_type_string (arg : IdlArg) : String :=
  match arg.arg_type with
  | .str s => s
  | .obj fields =>
    match List.lookup "option" fields with
    | some option_type => "option_" ++ ((jsonAsStr option_type).getD "unknown")
    | none =>
      match List.lookup "defined" fields with
      | some defined_type => "defined_" ++ ((jsonAsStr defined_type).getD "unknown")
      | none => "unknown"
  | .other => "unknown"

/-- Method `IdlAccount::is_writable` from src/commands/types.rs:
`writable.unwrap_or(is_mut.unwrap_or(false))`. -/
def IdlAccount.is_writable (a : IdlAccount) : Bool :=
  a.writable.getD (a.is_mut.getD false)

/-- Method `IdlAccount::is_signer_account` from src/commands/types.rs:
`signer.unwrap_or(is_signer.unwrap_or(false))`. -/
def IdlAccount.is_signer_account (a : IdlAccount) : Bool :=
  a.signer.getD (a.is_signer.getD false)

/-- Model of `s.starts_with(c)` for a single character pattern. -/
def startsWithChar (s : String) (c : Char) : Bool :=
  match s.data with
  | [] => false
  | c0 :: _ => c0 = c

/-- Buffer-construction expression emitted for a `const` seed carrying
`value_bytes` (src/commands/codegen.rs lines 474-479). -/
def constSeedBuffer (value_bytes : List Nat) : String :=
  "Buffer.from(\x27" ++ bytes_to_string value_bytes ++ "\x27)"

/-- Buffer-construction expression emitted for an `arg` seed named
`param_name`: the type table of src/commands/codegen.rs lines 499-530,
keyed by the argument's collapsed type string (with the "string"
default when the argument is not found). -/
def argSeedBuffer (instruction_args : List IdlArg) (param_name : String) : String :=
  let arg_type :=
    ((instruction_args.find? (fun arg => arg.name == param_name)).map
      IdlArg.get_type_string).getD "string"
  if arg_type = "string" then "Buffer.from(" ++ param_name ++ ")"
  else if arg_type = "u8" then "Buffer.from([" ++ param_name ++ "])"
  else if arg_type = "u16" then "Buffer.from(new Uint16Array([" ++ param_name ++ "]))"
  else if arg_type = "u32" then "Buffer.from(new Uint32Array([" ++ param_name ++ "]))"
  else if arg_type = "u64" then
    "Buffer.from(new anchor.BN(" ++ param_name ++ ").toArray(\x27le\x27, 8))"
  else if arg_type = "i8" then
    "Buffer.from([" ++ param_name ++ " < 0 ? " ++ param_name ++ " + 256 : " ++ param_name ++ "])"
  else if arg_type = "i16" then "Buffer.from(new Int16Array([" ++ param_name ++ "]))"
  else if arg_type = "i32" then "Buffer.from(new Int32Array([" ++ param_name ++ "]))"
  else if arg_type = "i64" then
    "Buffer.from(new anchor.BN(" ++ param_name ++ ").toArray(\x27le\x27, 8))"
  else if arg_type = "bool" then "Buffer.from([" ++ param_name ++ " ? 1 : 0])"
  else if arg_type = "bytes" ∨ arg_type = "Vec<u8>" then "Buffer.from(" ++ param_name ++ ")"
  else if arg_type = "publicKey" then param_name ++ ".toBuffer()"
  else if arg_type = "pubkey" ∨ arg_type = "Pubkey" ∨ arg_type = "PublicKey" then
    param_name ++ ".toBuffer()"
  else if startsWithChar arg_type 'u' ∨ startsWithChar arg_type 'i' then
    "Buffer.from(new Uint32Array([" ++ param_name ++ "]))"
  else
    "Buffer.from(" ++ param_name ++ ") // TODO: Verify type handling for \x27" ++
      arg_type ++ "\x27"

/-- Seed loop of `parse_pda_seeds` (src/commands/codegen.rs lines
468-542), with the two growing vectors as explicit accumulators.  A
`const` seed without `value`, and an `account` or `arg` seed without
`path`, leave both accumulators unchanged; an unknown kind aborts with
`InvalidIdl`. -/
def parsePdaSeedsAux (instruction_args : List IdlArg) :
    List IdlSeed → List String → List String →
    Except SolanaPmError (List String × List String)
  | [], params, seed_buffers => .ok (params, seed_buffers)
  | seed :: rest, params, seed_buffers =>
    if seed.kind = "const" then
      match seed.value with
      | some value_bytes =>
        parsePdaSeedsAux instruction_args rest params
          (seed_buffers ++ [constSeedBuffer value_bytes])
      | none => parsePdaSeedsAux instruction_args rest params seed_buffers
    else if seed.kind = "account" then
      match seed.path with
      | some path =>
        parsePdaSeedsAux instruction_args rest
          (if params.contains (extract_param_from_path path) then params
            else params ++ [extract_param_from_path path])
          (seed_buffers ++ [extract_param_from_path path ++ ".toBuffer()"])
      | none => parsePdaSeedsAux instruction_args rest params seed_buffers
    else if seed.kind = "arg" then
      match seed.path with
      | some path =>
        parsePdaSeedsAux instruction_args rest
          (if params.contains path then params else params ++ [path])
          (seed_buffers ++ [argSeedBuffer instruction_args path])
      | none => parsePdaSeedsAux instruction_args rest params seed_buffers
    else
      .error (.invalidIdl ("Unknown seed kind: " ++ seed.kind))

/-- Function `parse_pda_seeds` from src/commands/codegen.rs: resolves a seed list
into the ordered external parameter names and the ordered
buffer-construction expressions. -/
def parse_pda_seeds (seeds : List IdlSeed) (instruction_args : List IdlArg) :
    Except SolanaPmError (List String × List String) :=
  parsePdaSeedsAux instruction_args seeds [] []

/-- Recognized seed kinds: exactly the match arms of `parse_pda_seeds`
other than the error fallback. -/
def knownSeedKind (k : String) : Bool :=
  k == "const" || k == "account" || k == "arg"

/-- Parameter name contributed by one seed, if any: the final path
segment for an `account` seed with a path, the path itself for an `arg`
seed with a path, nothing otherwise. -/
def seedParamName (seed : IdlSeed) : Option String :=
  if seed.kind = "account" then seed.path.map extract_param_from_path
  else if seed.kind = "arg" then seed.path
  else none

/-- Buffer expression contributed by one seed, if any. -/
def seedBufferExpr (instruction_args : List IdlArg) (seed : IdlSeed) : Option String :=
  if seed.kind = "const" then seed.value.map constSeedBuffer
  else if seed.kind = "account" then
    seed.path.map (fun path => extract_param_from_path path ++ ".toBuffer()")
  else if seed.kind = "arg" then
    seed.path.map (fun path => argSeedBuffer instruction_args path)
  else none

/-- First-occurrence deduplication with an explicit seen accumulator:
an element already in `seen` is dropped, a new element is kept and
appended to `seen`. -/
def dedupFirstAux : List String → List String → List String
  | [], _ => []
  | x :: xs, seen =>
    if seen.contains x then dedupFirstAux xs seen
    else x :: dedupFirstAux xs (seen ++ [x])

/-- First-occurrence deduplication of a list of names. -/
def dedupFirst (l : List String) : List String :=
  dedupFirstAux l []

/-- Concatenation of a list of strings, modelling a sequence of
`push_str` calls onto one output buffer. -/
def strConcat : List String → String
  | [] => ""
  | s :: rest => s ++ strConcat rest

/-- Text of one PDA helper function as pushed by `generate_pda_functions`
(src/commands/codegen.rs lines 206-223). -/
def pdaFunctionCode (account_name : String) (params seed_buffers : List String) : String :=
  "// Get " ++ account_name ++ " PDA\n" ++
  "export const get" ++ snake_to_pascal account_name ++ "PDA = (" ++
    String.intercalate ", " params ++ ") => \x7b\n" ++
  "  return PublicKey.findProgramAddressSync(\n" ++
  "    [\n" ++
  strConcat (seed_buffers.map (fun seed_buffer => "      " ++ seed_buffer ++ ",\n")) ++
  "    ],\n" ++
  "    PROGRAM_ID\n" ++
  "  );\n" ++
  "\x7d;\n\n"

/-- Account loop of `generate_pda_functions` for one instruction: each
account carrying a PDA whose name is not yet in the seen set gets its
name inserted and (after seed resolution) one emitted function, returned
here as a (account name, function text) pair.  Also returns the grown
seen set. -/
def pdaBlocksAccounts (instruction_args : List IdlArg) :
    List IdlAccount → List String →
    Except SolanaPmError (List (String × String) × List String)
  | [], generated_pdas => .ok ([], generated_pdas)
  | account :: rest, generated_pdas =>
    match account.pda with
    | none => pdaBlocksAccounts instruction_args rest generated_pdas
    | some pda =>
      if generated_pdas.contains account.name then
        pdaBlocksAccounts instruction_args rest generated_pdas
      else
        match parse_pda_seeds pda.seeds instruction_args with
        | .error e => .error e
        | .ok (params, seed_buffers) =>
          match pdaBlocksAccounts instruction_args rest (generated_pdas ++ [account.name]) with
          | .error e => .error e
          | .ok (blocks, generated_pdas') =>
            .ok ((account.name, pdaFunctionCode account.name params seed_buffers) :: blocks,
              generated_pdas')

/-- Instruction loop of `generate_pda_functions`, threading the seen set
across instructions. -/
def pdaBlocksInstructions :
    List IdlInstruction → List String →
    Except SolanaPmError (List (String × String) × List String)
  | [], generated_pdas => .ok ([], generated_pdas)
  | instruction :: rest, generated_pdas =>
    match pdaBlocksAccounts instruction.args instruction.accounts generated_pdas with
    | .error e => .error e
    | .ok (blocks, generated_pdas') =>
      match pdaBlocksInstructions rest generated_pdas' with
      | .error e => .error e
      | .ok (blocks', generated_pdas'') => .ok (blocks ++ blocks', generated_pdas'')

/-- Function `generate_pda_functions` from src/commands/codegen.rs, with the
emitted text split into one block per generated function, each tagged
with the account name it was generated for. -/
def generate_pda_functions (idl : Idl) :
    Except SolanaPmError (List (String × String)) :=
  (pdaBlocksInstructions idl.instructions []).map (fun r => r.1)

/-- Concatenated text of all PDA helper functions, as appended to the
output by `generate_pda_functions`. -/
def generate_pda_functions_code (idl : Idl) : Except SolanaPmError String :=
  (generate_pda_functions idl).map (fun blocks => strConcat (blocks.map Prod.snd))

/-- Names of the accounts of one instruction that carry a PDA, in
account order (with repetitions). -/
def accountPdaNames (accounts : List IdlAccount) : List String :=
  accounts.filterMap (fun account =>
    if account.pda.isSome then some account.name else none)

/-- Every account name carrying a PDA, in schema order, across all
instructions (with repetitions). -/
def pdaNames (idl : Idl) : List String :=
  (idl.instructions.map (fun instruction =>
    accountPdaNames instruction.accounts)).flatten

/-- Inner parameter-collection loop of `generate_instruction_function`
(src/commands/codegen.rs lines 266-270): a PDA parameter is appended to
`all_params` when it is not already present and is not "creator". -/
def instructionParamsLoop : List String → List String → List String
  | [], all_params => all_params
  | param :: rest, all_params =>
    if !(all_params.contains param) && param != "creator" then
      instructionParamsLoop rest (all_params ++ [param])
    else instructionParamsLoop rest all_params

/-- Account loop collecting `all_params` (src/commands/codegen.rs lines
262-272): each PDA-carrying account contributes its resolved parameter
names through `instructionParamsLoop`. -/
def instructionAllParamsAux (instruction_args : List IdlArg) :
    List IdlAccount → List String → Except SolanaPmError (List String)
  | [], all_params => .ok all_params
  | account :: rest, all_params =>
    match account.pda with
    | none => instructionAllParamsAux instruction_args rest all_params
    | some pda =>
      match parse_pda_seeds pda.seeds instruction_args with
      | .error e => .error e
      | .ok (pda_params, _) =>
        instructionAllParamsAux instruction_args rest
          (instructionParamsLoop pda_params all_params)

/-- Complete parameter list of one instruction wrapper: the instruction's
argument names (schema order) extended by the PDA-derived parameters. -/
def instructionAllParams (instruction : IdlInstruction) :
    Except SolanaPmError (List String) :=
  instructionAllParamsAux instruction.args instruction.accounts
    (instruction.args.map IdlArg.name)

/-- Concatenation, in account order, of the parameter lists resolved for
every PDA-carrying account of the instruction (before any filtering or
deduplication). -/
def pdaParamsConcatAux (instruction_args : List IdlArg) :
    List IdlAccount → Except SolanaPmError (List String)
  | [] => .ok []
  | account :: rest =>
    match account.pda with
    | none => pdaParamsConcatAux instruction_args rest
    | some pda =>
      match parse_pda_seeds pda.seeds instruction_args with
      | .error e => .error e
      | .ok (pda_params, _) =>
        (pdaParamsConcatAux instruction_args rest).map (fun l => pda_params ++ l)

/-- Concatenated raw PDA parameter stream of one instruction. -/
def pdaParamsConcat (instruction : IdlInstruction) :
    Except SolanaPmError (List String) :=
  pdaParamsConcatAux instruction.args instruction.accounts

/-- PDA-derivation call sites of one instruction wrapper
(src/commands/codegen.rs lines 283-305): the emitted `const [xPda] = ...`
lines and the `(account name, variable name)` pairs collected in
`pda_variables`. -/
def pdaDerivationsAux (instruction_args : List IdlArg) :
    List IdlAccount → Except SolanaPmError (String × List (String × String))
  | [] => .ok ("", [])
  | account :: rest =>
    match account.pda with
    | none => pdaDerivationsAux instruction_args rest
    | some pda =>
      match parse_pda_seeds pda.seeds instruction_args with
      | .error e => .error e
      | .ok (pda_params, _) =>
        match pdaDerivationsAux instruction_args rest with
        | .error e => .error e
        | .ok (lines, pda_variables) =>
          .ok ("  const [" ++ snake_to_camel account.name ++ "Pda] = get" ++
              snake_to_pascal account.name ++ "PDA(" ++
              String.intercalate ", "
                (pda_params.map (fun param =>
                  if param = "creator" then "wallet.publicKey" else param)) ++
              ");\n" ++ lines,
            (account.name, snake_to_camel account.name ++ "Pda") :: pda_variables)

/-- One line of the accounts object (src/commands/codegen.rs lines
321-347): first-match-wins over derived address, signer role, fixed
address (with the system-program special case), and the annotated
fallback parameter. -/
def accountLine (pda_variables : List (String × String)) (account : IdlAccount) : String :=
  let account_camel := snake_to_camel account.name
  let writable_comment := if account.is_writable then " // writable" else ""
  let signer_comment := if account.is_signer_account then " // signer" else ""
  match pda_variables.find? (fun p => p.1 == account.name) with
  | some p =>
    "      " ++ account_camel ++ ": " ++ p.2 ++ "," ++ writable_comment ++
      signer_comment ++ "  \n"
  | none =>
    if account.is_signer_account then
      "      " ++ account_camel ++ ": wallet.publicKey," ++ writable_comment ++
        signer_comment ++ "\n"
    else
      match account.address with
      | some address =>
        if address = SYSTEM_PROGRAM_ID then
          "      " ++ account_camel ++ ": anchor.web3.SystemProgram.programId," ++
            writable_comment ++ signer_comment ++ "\n"
        else
          "      " ++ account_camel ++ ": new PublicKey(\x27" ++ address ++ "\x27)," ++
            writable_comment ++ signer_comment ++ "\n"
      | none =>
        "      " ++ account_camel ++ ": " ++ account_camel ++
          ", // TODO: Add proper account" ++ writable_comment ++ signer_comment ++ "\n"

/-- Opening of one instruction wrapper (src/commands/codegen.rs lines
249-279): the comment line, the function named by lower-camel-casing the
instruction name, the leading `wallet` parameter and the collected
parameter list. -/
def instructionHeaderCode (instruction : IdlInstruction) (all_params : List String) : String :=
  "// " ++ snake_to_camel instruction.name ++ " on-chain\n" ++
  "export const " ++ snake_to_camel instruction.name ++ " = async (wallet" ++
  strConcat (all_params.map (fun param => ", " ++ param)) ++
  ") => \x7b\n"

/-- Body of one instruction wrapper after the parameter list
(src/commands/codegen.rs lines 280-361). -/
def instructionBodyCode (instruction : IdlInstruction) (derivation_lines : String)
    (pda_variables : List (String × String)) : String :=
  "  const program = getProgram(wallet);\n" ++
  derivation_lines ++
  "  \n" ++
  "  const tx = await program.methods\n" ++
  "    ." ++ snake_to_camel instruction.name ++ "(" ++
  String.intercalate ", " (instruction.args.map IdlArg.name) ++
  ")\n" ++
  "    .accounts(\x7b\n" ++
  strConcat (instruction.accounts.map (accountLine pda_variables)) ++
  "    \x7d)\n" ++
  "    .rpc();\n" ++
  "    \n" ++
  (match pda_variables with
   | [] => "  return tx;\n"
   | (_, primary_pda) :: _ => "  return \x7b tx, pda: " ++ primary_pda ++ " \x7d;\n") ++
  "\x7d;\n\n"

/-- Function `generate_instruction_function` from src/commands/codegen.rs: the
full text of one instruction wrapper. -/
def generate_instruction_function (instruction : IdlInstruction) :
    Except SolanaPmError String :=
  match instructionAllParams instruction with
  | .error e => .error e
  | .ok all_params =>
    match pdaDerivationsAux instruction.args instruction.accounts with
    | .error e => .error e
    | .ok (derivation_lines, pda_variables) =>
      .ok (instructionHeaderCode instruction all_params ++
        instructionBodyCode instruction derivation_lines pda_variables)

/-- Instruction loop of `generate_ts_code` (src/commands/codegen.rs
lines 172-174). -/
def instructionFunctionsCode : List IdlInstruction → Except SolanaPmError String
  | [] => .ok ""
  | instruction :: rest =>
    match generate_instruction_function instruction with
    | .error e => .error e
    | .ok s => (instructionFunctionsCode rest).map (fun t => s ++ t)

/-- Function `generate_ts_code` from src/commands/codegen.rs: preamble (imports,
IDL import path, program id, network-selected RPC endpoint, provider
helper), then the PDA helper functions, then one wrapper per
instruction. -/
def generate_ts_code (idl : Idl) (program_name : String) (program_info : Program) :
    Except SolanaPmError String :=
  let idl_path :=
    match program_info.idl_path with
    | some custom_path =>
      if custom_path.startsWith "./" then "../../" ++ custom_path.drop 2
      else if custom_path.startsWith "/" then custom_path
      else "../../" ++ custom_path
    | none => "../idl/" ++ program_name ++ ".json"
  let header :=
    "import * as anchor from \x27@coral-xyz/anchor\x27;\n" ++
    "import \x7b Connection, PublicKey \x7d from \x27@solana/web3.js\x27;\n" ++
    "import idl from \x27" ++ idl_path ++ "\x27;\n\n" ++
    "// Your deployed program ID\n" ++
    "const PROGRAM_ID = new PublicKey(\x27" ++ program_info.program_id ++ "\x27);\n\n" ++
    (if program_info.network = "mainnet" then "// Mainnet connection\n" ++
        "const connection = new Connection(\x27" ++ MAINNET_RPC_URL ++
        "\x27, \x27confirmed\x27);\n\n"
      else if program_info.network = "devnet" then "// Devnet connection\n" ++
        "const connection = new Connection(\x27" ++ DEVNET_RPC_URL ++
        "\x27, \x27confirmed\x27);\n\n"
      else "// Unknown network, defaulting to devnet\n" ++
        "const connection = new Connection(\x27" ++ DEVNET_RPC_URL ++
        "\x27, \x27confirmed\x27);\n\n") ++
    "// Get program instance\n" ++
    "const getProgram = (wallet) => \x7b\n" ++
    "  const provider = new anchor.AnchorProvider(connection, wallet, \x7b\n" ++
    "    commitment: \x27confirmed\x27,\n" ++
    "  \x7d);\n" ++
    "  \n" ++
    "  return new anchor.Program(idl, provider);\n" ++
    "\x7d;\n\n"
  match generate_pda_functions_code idl with
  | .error e => .error e
  | .ok pda_code =>
    match instructionFunctionsCode idl.instructions with
    | .error e => .error e
    | .ok instruction_code => .ok (header ++ pda_code ++ instruction_code)

/-- Path of the client file written for one program
(src/commands/codegen.rs lines 80-81). -/
def clientFilePath (program_name : String) : String :=
  PROGRAM_CLIENT_DIR ++ "/" ++ snake_to_pascal program_name ++ "Client.ts"

/-- Orchestrator loop of `generate_typescript_client`
(src/commands/codegen.rs lines 52-89), with file-system I/O abstracted
as described at the head of this file: the input list carries each
configured program with its already-read IDL, the first component of the
result lists the files written (in order), and the second component is
the error on which the loop aborted, if any.  The `?` on
`generate_ts_code` makes the loop return the error at once: no file is
written for the failing program and later programs are not visited. -/
def generate_typescript_client :
    List (String × Program × Idl) → List (String × String) × Option SolanaPmError
  | [] => ([], none)
  | q :: rest =>
    match generate_ts_code q.2.2 q.1 q.2.1 with
    | .error e => ([], some e)
    | .ok ts_code =>
      let r := generate_typescript_client rest
      ((clientFilePath q.1, ts_code) :: r.1, r.2)

/-- Capitalization of one segment as `snake_to_camel` performs it: only
the first character of the uppercase expansion replaces the original
first character. -/
def capitalizeWordFirst : List Char → List Char
  | [] => []
  | c :: cs => rustUpperFirst c :: cs

/-- Segment-wise reading of `snake_to_camel`: split the input on '_',
keep the first segment unchanged, capitalize the first character of each
later segment, concatenate. -/
def camelSegmentsSpec (s : String) : String :=
  match splitChar '_' s.data with
  | [] => ""
  | w :: ws => ⟨w ++ (ws.map capitalizeWordFirst).flatten⟩

/-! Helper lemmas. -/

theorem splitChar_ne_nil (sep : Char) (l : List Char) : splitChar sep l ≠ [] := by
  cases l with
  | nil => simp [splitChar]
  | cons c cs =>
    rw [splitChar]
    split
    · simp
    · cases h : splitChar sep cs <;> simp

theorem camelAux_split (l : List Char) :
    camelAux l false =
      (splitChar '_' l).headD [] ++
        ((splitChar '_' l).tail.map capitalizeWordFirst).flatten ∧
    camelAux l true = ((splitChar '_' l).map capitalizeWordFirst).flatten := by
  induction l with
  | nil => simp [camelAux, splitChar, capitalizeWordFirst]
  | cons c cs ih =>
    by_cases hc : c = '_'
    · subst hc
      rw [camelAux, camelAux, splitChar]
      simp only [if_pos rfl, List.headD_cons, List.tail_cons, List.map_cons,
        List.flatten_cons, capitalizeWordFirst]
      exact ⟨ih.2, by simpa using ih.2⟩
    · rw [camelAux, camelAux, splitChar]
      simp only [if_neg hc]
      cases hs : splitChar '_' cs with
      | nil => exact absurd hs (splitChar_ne_nil _ _)
      | cons w ws =>
        rw [hs] at ih
        simp only [List.headD_cons, List.tail_cons, List.map_cons,
          List.flatten_cons, capitalizeWordFirst] at ih ⊢
        refine ⟨by rw [ih.1]; simp, ?_⟩
        rw [ih.1]
        simp

theorem camelAux_no_underscore (l : List Char) (h : '_' ∉ l) :
    camelAux l false = l := by
  induction l with
  | nil => rfl
  | cons c cs ih =>
    simp only [List.mem_cons, not_or] at h
    rw [camelAux, if_neg (fun hc => h.1 hc.symm)]
    simpa using ih h.2

theorem splitChar_no_sep (sep : Char) (l : List Char) (h : sep ∉ l) :
    splitChar sep l = [l] := by
  induction l with
  | nil => rfl
  | cons c cs ih =>
    simp only [List.mem_cons, not_or] at h
    rw [splitChar, if_neg (fun hc => h.1 hc.symm), ih h.2]

theorem mem_dedupFirstAux (l : List String) :
    ∀ (seen : List String) (x : String), x ∈ dedupFirstAux l seen → x ∉ seen := by
  induction l with
  | nil => intro seen x h; simp [dedupFirstAux] at h
  | cons y ys ih =>
    intro seen x h
    rw [dedupFirstAux] at h
    by_cases hc : seen.contains y = true
    · rw [if_pos hc] at h
      exact ih seen x h
    · rw [if_neg hc] at h
      rcases List.mem_cons.mp h with rfl | hm
      · exact fun hx => hc (List.elem_iff.mpr hx)
      · intro hx
        exact ih (seen ++ [y]) x hm (List.mem_append_left _ hx)

theorem nodup_dedupFirstAux (l : List String) :
    ∀ seen : List String, (dedupFirstAux l seen).Nodup := by
  induction l with
  | nil => intro seen; simp [dedupFirstAux]
  | cons y ys ih =>
    intro seen
    rw [dedupFirstAux]
    by_cases hc : seen.contains y = true
    · rw [if_pos hc]; exact ih seen
    · rw [if_neg hc]
      refine List.nodup_cons.mpr ⟨?_, ih (seen ++ [y])⟩
      intro hm
      exact mem_dedupFirstAux ys (seen ++ [y]) y hm
        (List.mem_append_right _ (List.mem_singleton.mpr rfl))

theorem parsePdaSeedsAux_ok (args : List IdlArg) (seeds : List IdlSeed) :
    ∀ params bufs P B : List String,
      parsePdaSeedsAux args seeds params bufs = .ok (P, B) →
      P = params ++ dedupFirstAux (seeds.filterMap seedParamName) params ∧
      B = bufs ++ seeds.filterMap (seedBufferExpr args) := by
  induction seeds with
  | nil =>
    intro params bufs P B h
    simp only [parsePdaSeedsAux, Except.ok.injEq, Prod.mk.injEq] at h
    simp [← h.1, ← h.2, dedupFirstAux]
  | cons seed rest ih =>
    intro params bufs P B h
    rw [parsePdaSeedsAux] at h
    by_cases h1 : seed.kind = "const"
    · rw [if_pos h1] at h
      have hpn : seedParamName seed = none := by simp [seedParamName, h1]
      cases hv : seed.value with
      | some v =>
        rw [hv] at h
        have hbe : seedBufferExpr args seed = some (constSeedBuffer v) := by
          simp [seedBufferExpr, h1, hv]
        obtain ⟨hP, hB⟩ := ih _ _ _ _ h
        refine ⟨by rw [hP, List.filterMap_cons, hpn], ?_⟩
        rw [hB, List.filterMap_cons, hbe, List.append_assoc]
        rfl
      | none =>
        rw [hv] at h
        have hbe : seedBufferExpr args seed = none := by simp [seedBufferExpr, h1, hv]
        obtain ⟨hP, hB⟩ := ih _ _ _ _ h
        exact ⟨by rw [hP, List.filterMap_cons, hpn],
          by rw [hB, List.filterMap_cons, hbe]⟩
    · rw [if_neg h1] at h
      by_cases h2 : seed.kind = "account"
      · rw [if_pos h2] at h
        cases hp : seed.path with
        | some path =>
          rw [hp] at h
          have hpn : seedParamName seed = some (extract_param_from_path path) := by
            simp [seedParamName, h2, hp]
          have hbe : seedBufferExpr args seed =
              some (extract_param_from_path path ++ ".toBuffer()") := by
            simp [seedBufferExpr, h1, h2, hp]
          obtain ⟨hP, hB⟩ := ih _ _ _ _ h
          constructor
          · rw [hP, List.filterMap_cons, hpn, dedupFirstAux]
            by_cases hc : params.contains (extract_param_from_path path) = true
            · have hm : extract_param_from_path path ∈ params := List.elem_iff.mp hc
              simp [hc, hm]
            · have hm : extract_param_from_path path ∉ params :=
                fun hx => hc (List.elem_iff.mpr hx)
              simp [hc, hm, List.append_assoc]
          · rw [hB, List.filterMap_cons, hbe, List.append_assoc]
            rfl
        | none =>
          rw [hp] at h
          have hpn : seedParamName seed = none := by simp [seedParamName, h2, hp]
          have hbe : seedBufferExpr args seed = none := by
            simp [seedBufferExpr, h1, h2, hp]
          obtain ⟨hP, hB⟩ := ih _ _ _ _ h
          exact ⟨by rw [hP, List.filterMap_cons, hpn],
            by rw [hB, List.filterMap_cons, hbe]⟩
      · rw [if_neg h2] at h
        by_cases h3 : seed.kind = "arg"
        · rw [if_pos h3] at h
          cases hp : seed.path with
          | some path =>
            rw [hp] at h
            have hpn : seedParamName seed = some path := by
              simp [seedParamName, h2, h3, hp]
            have hbe : seedBufferExpr args seed = some (argSeedBuffer args path) := by
              simp [seedBufferExpr, h1, h2, h3, hp]
            obtain ⟨hP, hB⟩ := ih _ _ _ _ h
            constructor
            · rw [hP, List.filterMap_cons, hpn, dedupFirstAux]
              by_cases hc : params.contains path = true
              · have hm : path ∈ params := List.elem_iff.mp hc
                simp [hc, hm]
              · have hm : path ∉ params := fun hx => hc (List.elem_iff.mpr hx)
                simp [hc, hm, List.append_assoc]
            · rw [hB, List.filterMap_cons, hbe, List.append_assoc]
              rfl
          | none =>
            rw [hp] at h
            have hpn : seedParamName seed = none := by simp [seedParamName, h2, h3, hp]
            have hbe : seedBufferExpr args seed = none := by
              simp [seedBufferExpr, h1, h2, h3, hp]
            obtain ⟨hP, hB⟩ := ih _ _ _ _ h
            exact ⟨by rw [hP, List.filterMap_cons, hpn],
              by rw [hB, List.filterMap_cons, hbe]⟩
        · rw [if_neg h3] at h
          exact absurd h (by simp)

theorem length_filterMap_isSome {α β : Type} (f : α → Option β) (l : List α) :
    (l.filterMap f).length = (l.filter (fun x => (f x).isSome)).length := by
  induction l with
  | nil => rfl
  | cons x xs ih =>
    cases hf : f x <;> simp [List.filterMap_cons, List.filter_cons, hf, ih]

theorem knownSeedKind_true_iff (k : String) :
    knownSeedKind k = true ↔ k = "const" ∨ k = "account" ∨ k = "arg" := by
  simp [knownSeedKind, or_assoc]

theorem parsePdaSeedsAux_unknown_kind (args : List IdlArg) (bad : IdlSeed)
    (post : List IdlSeed) (hbad : knownSeedKind bad.kind = false) :
    ∀ (pre : List IdlSeed) (params bufs : List String),
      (∀ s ∈ pre, knownSeedKind s.kind = true) →
      parsePdaSeedsAux args (pre ++ bad :: post) params bufs =
        .error (.invalidIdl ("Unknown seed kind: " ++ bad.kind)) := by
  have hb : ¬ bad.kind = "const" ∧ ¬ bad.kind = "account" ∧ ¬ bad.kind = "arg" := by
    simpa [knownSeedKind, not_or, and_assoc] using hbad
  intro pre
  induction pre with
  | nil =>
    intro params bufs _
    rw [List.nil_append, parsePdaSeedsAux, if_neg hb.1, if_neg hb.2.1, if_neg hb.2.2]
  | cons s pre ih =>
    intro params bufs hpre
    have hrest : ∀ t ∈ pre, knownSeedKind t.kind = true :=
      fun t ht => hpre t (List.mem_cons_of_mem _ ht)
    rcases (knownSeedKind_true_iff s.kind).mp (hpre s (List.mem_cons_self _ _)) with
      hk | hk | hk
    · rw [List.cons_append, parsePdaSeedsAux, if_pos hk]
      cases s.value <;> exact ih _ _ hrest
    · rw [List.cons_append, parsePdaSeedsAux,
        if_neg (by rw [hk]; simp), if_pos hk]
      cases s.path <;> exact ih _ _ hrest
    · rw [List.cons_append, parsePdaSeedsAux,
        if_neg (by rw [hk]; simp), if_neg (by rw [hk]; simp), if_pos hk]
      cases s.path <;> exact ih _ _ hrest

/-! Claim C3. -/

/-- Counterexample to C3: `snake_to_camel` does not lowercase the first
segment, so an input whose first segment contains uppercase letters does
not begin with that segment lowercased: "Get_account" maps to
"GetAccount", not to "getAccount". -/
theorem c3_counterexample :
    snake_to_camel "Get_account" = "GetAccount" ∧
    snake_to_camel "Get_account" ≠ "getAccount" := by
  constructor <;> decide

/-- Claim C3 (amended): `snake_to_camel` splits on '_', keeps the first
segment unchanged (it is not lowercased), capitalizes the first
character of each subsequent segment, and concatenates; it maps
"get_account" to "getAccount", and an input whose first segment contains
uppercase letters keeps that segment verbatim, e.g. "Get_account" maps
to "GetAccount". -/
theorem c3_camel_amended :
    (∀ s : String, snake_to_camel s = camelSegmentsSpec s) ∧
    snake_to_camel "get_account" = "getAccount" ∧
    snake_to_camel "Get_account" = "GetAccount" := by
  refine ⟨fun s => ?_, by decide, by decide⟩
  rw [snake_to_camel, camelSegmentsSpec]
  cases hs : splitChar '_' s.data with
  | nil => exact absurd hs (splitChar_ne_nil _ _)
  | cons w ws =>
    have h := (camelAux_split s.data).1
    rw [hs] at h
    simp only [List.headD_cons, List.tail_cons] at h
    exact congrArg String.mk h

/-! Claim C7. -/

/-- Claim C7: `is_writable` returns the new-format `writable` field when
present, otherwise the legacy `isMut` field when present, otherwise
false (the new name takes precedence), and `is_signer_account` behaves
symmetrically over `signer`/`isSigner`; an account with `isMut: true`
and no `writable` field resolves `is_writable` to true. -/
theorem c7_role_resolution (a : IdlAccount) :
    a.is_writable = (match a.writable, a.is_mut with
      | some w, _ => w
      | none, some m => m
      | none, none => false) ∧
    a.is_signer_account = (match a.signer, a.is_signer with
      | some s, _ => s
      | none, some m => m
      | none, none => false) ∧
    (IdlAccount.mk "payer" none none (some true) none none none).is_writable = true := by
  refine ⟨?_, ?_, rfl⟩
  · rcases a with ⟨n, w, sg, m, s2, ad, p⟩
    cases w <;> cases m <;> rfl
  · rcases a with ⟨n, w, sg, m, s2, ad, p⟩
    cases sg <;> cases s2 <;> rfl

/-! Claim C9. -/

/-- Counterexample to C9: for the single-segment input "ß" (no '_'), the
uppercase expansion of 'ß' is the two-character "SS", so
`snake_to_camel` returns "ß" while `snake_to_pascal` returns "SS" and
the two results differ from the second character onward, not only in the
case of the first character. -/
theorem c9_counterexample :
    ("ß" : String) ≠ "" ∧ '_' ∉ ("ß" : String).data ∧
    snake_to_camel "ß" = "ß" ∧ snake_to_pascal "ß" = "SS" ∧
    (snake_to_camel "ß").data.tail ≠ (snake_to_pascal "ß").data.tail := by
  refine ⟨by decide, by decide, by decide, by decide, by decide⟩

/-- Claim C9 (amended): for every non-empty input with no '_' whose
first character's uppercase expansion is a single character (true of
every ASCII character), `snake_to_camel` returns the input unchanged and
`snake_to_pascal` replaces exactly the first character by its uppercase
form, so the two results differ only in the case of the first character
and are identical from the second character onward.  (First characters
with a multi-character uppercase expansion, such as 'ß', escape this and
refute the original claim.) -/
theorem c9_single_segment_amended (c : Char) (cs : List Char)
    (hu : '_' ∉ c :: cs) (h1 : (rustToUppercase c).length = 1) :
    snake_to_camel ⟨c :: cs⟩ = ⟨c :: cs⟩ ∧
    snake_to_pascal ⟨c :: cs⟩ = ⟨rustUpperFirst c :: cs⟩ := by
  obtain ⟨u, hu1⟩ := List.length_eq_one.mp h1
  constructor
  · rw [snake_to_camel]
    exact congrArg String.mk (camelAux_no_underscore _ hu)
  · rw [snake_to_pascal]
    have hs : splitChar '_' (String.mk (c :: cs)).data = [c :: cs] :=
      splitChar_no_sep _ _ hu
    rw [hs]
    simp only [List.map_cons, List.map_nil, List.flatten_cons, List.flatten_nil,
      capitalizeWord, List.append_nil]
    rw [hu1]
    have : rustUpperFirst c = u := by rw [rustUpperFirst, hu1]; rfl
    rw [this]
    rfl

/-- Witness for the amended C9 at the concrete input "hello". -/
theorem c9_single_segment_amended_witness :
    snake_to_camel ⟨'h' :: "ello".data⟩ = ⟨'h' :: "ello".data⟩ ∧
    snake_to_pascal ⟨'h' :: "ello".data⟩ = ⟨rustUpperFirst 'h' :: "ello".data⟩ :=
  c9_single_segment_amended 'h' "ello".data (by decide) (by decide)

/-! Claim C2. -/

/-- Counterexample to C2: a `const` seed with no `value` field is
silently skipped by `parse_pda_seeds` — the one-seed list below is
accepted without error yet produces zero buffer expressions, not one
expression per input seed. -/
theorem c2_counterexample :
    parse_pda_seeds [IdlSeed.mk "const" none none none] [] = .ok ([], []) ∧
    ([] : List String).length ≠ ([IdlSeed.mk "const" none none none]).length := by
  exact ⟨rfl, by decide⟩

/-- Claim C2 (amended): for every accepted seed list, `parse_pda_seeds`
returns exactly one byte-buffer-construction expression per seed that
carries its required field (a `value` for kind "const", a `path` for
kinds "account"/"arg"), in input order; a seed missing that field is
silently skipped and contributes no expression at all. -/
theorem c2_buffers_amended (seeds : List IdlSeed) (args : List IdlArg)
    (ps bufs : List String) (h : parse_pda_seeds seeds args = .ok (ps, bufs)) :
    bufs = seeds.filterMap (seedBufferExpr args) ∧
    bufs.length = (seeds.filter (fun seed => (seedBufferExpr args seed).isSome)).length := by
  have hb := (parsePdaSeedsAux_ok args seeds [] [] ps bufs h).2
  rw [List.nil_append] at hb
  exact ⟨hb, by rw [hb]; exact length_filterMap_isSome _ _⟩

/-- Concrete seed list for the C2 witness: a `const` seed with a value,
an `account` seed with a dotted path, an `arg` seed. -/
def c2Seeds : List IdlSeed :=
  [IdlSeed.mk "const" (some [118, 97, 117, 108, 116]) none none,
   IdlSeed.mk "account" none (some "board.creator") none,
   IdlSeed.mk "arg" none (some "num") none]

/-- Buffer expressions produced for `c2Seeds`. -/
def c2Bufs : List String :=
  ["Buffer.from(\x27vault\x27)", "creator.toBuffer()", "Buffer.from(num)"]

/-- Witness for the amended C2 at a concrete seed list. -/
theorem c2_buffers_amended_witness :
    parse_pda_seeds c2Seeds [] = .ok (["creator", "num"], c2Bufs) ∧
    (c2Bufs = c2Seeds.filterMap (seedBufferExpr []) ∧
      c2Bufs.length =
        (c2Seeds.filter (fun seed => (seedBufferExpr [] seed).isSome)).length) :=
  ⟨rfl, c2_buffers_amended c2Seeds [] ["creator", "num"] c2Bufs rfl⟩

/-! Claim C6. -/

/-- Claim C6: whenever `parse_pda_seeds` succeeds, the returned
parameter list is the first-occurrence deduplication of the parameter
names referenced by the seeds, in seed order — each name appears exactly
once no matter how many account-kind or arg-kind seeds reference it. -/
theorem c6_params_first_seen_nodup (seeds : List IdlSeed) (args : List IdlArg)
    (ps bufs : List String) (h : parse_pda_seeds seeds args = .ok (ps, bufs)) :
    ps = dedupFirst (seeds.filterMap seedParamName) ∧ ps.Nodup := by
  have hp := (parsePdaSeedsAux_ok args seeds [] [] ps bufs h).1
  rw [List.nil_append] at hp
  exact ⟨hp, hp ▸ nodup_dedupFirstAux _ _⟩

/-- Concrete seed list for the C6 witness, referencing the name
"creator" through two different seeds and the name "num" twice. -/
def c6Seeds : List IdlSeed :=
  [IdlSeed.mk "account" none (some "board.creator") none,
   IdlSeed.mk "arg" none (some "num") none,
   IdlSeed.mk "account" none (some "creator") none,
   IdlSeed.mk "arg" none (some "num") none]

/-- Buffer expressions produced for `c6Seeds`. -/
def c6Bufs : List String :=
  ["creator.toBuffer()", "Buffer.from(num)", "creator.toBuffer()", "Buffer.from(num)"]

/-- Witness for C6 at a concrete seed list with repeated references. -/
theorem c6_params_first_seen_nodup_witness :
    parse_pda_seeds c6Seeds [] = .ok (["creator", "num"], c6Bufs) ∧
    ((["creator", "num"] : List String) = dedupFirst (c6Seeds.filterMap seedParamName) ∧
      (["creator", "num"] : List String).Nodup) :=
  ⟨rfl, c6_params_first_seen_nodup c6Seeds [] ["creator", "num"] c6Bufs rfl⟩

/-! Claim C8. -/

/-- Claim C8: a seed list containing a seed whose kind is outside
const/account/arg (all earlier seeds being of known kinds) makes
`parse_pda_seeds` fail with an `InvalidIdl` error naming the unknown
kind, returning no partial (parameters, buffer-expressions) output. -/
theorem c8_unknown_seed_kind (pre : List IdlSeed) (bad : IdlSeed)
    (post : List IdlSeed) (args : List IdlArg)
    (hpre : ∀ s ∈ pre, knownSeedKind s.kind = true)
    (hbad : knownSeedKind bad.kind = false) :
    parse_pda_seeds (pre ++ bad :: post) args =
      .error (.invalidIdl ("Unknown seed kind: " ++ bad.kind)) :=
  parsePdaSeedsAux_unknown_kind args bad post hbad pre [] [] hpre

/-- Witness for C8: a valid `const` seed followed by a seed of kind
"weird" fails with the expected error. -/
theorem c8_unknown_seed_kind_witness :
    (∀ s ∈ [IdlSeed.mk "const" (some [1]) none none], knownSeedKind s.kind = true) ∧
    knownSeedKind "weird" = false ∧
    parse_pda_seeds
        ([IdlSeed.mk "const" (some [1]) none none] ++ IdlSeed.mk "weird" none none none :: [])
        [] =
      .error (.invalidIdl ("Unknown seed kind: " ++ "weird")) :=
  ⟨by decide, by decide,
    c8_unknown_seed_kind [IdlSeed.mk "const" (some [1]) none none]
      (IdlSeed.mk "weird" none none none) [] [] (by decide) (by decide)⟩

/-! Claim C10. -/

/-- Claim C10: an argument whose JSON-object type matches neither the
option nor the defined shape collapses to the type string "unknown", and
because "unknown" starts with 'u', an arg-kind seed naming that argument
gets the 4-byte numeric fallback expression
`Buffer.from(new Uint32Array([...]))` rather than the raw pass-through
expression carrying the "TODO: Verify type handling" marker. -/
theorem c10_unknown_object_type (name : String) (fields : List (String × Json))
    (h1 : List.lookup "option" fields = none)
    (h2 : List.lookup "defined" fields = none) :
    IdlArg.get_type_string (IdlArg.mk name (Json.obj fields)) = "unknown" ∧
    parse_pda_seeds [IdlSeed.mk "arg" none (some name) none]
        [IdlArg.mk name (Json.obj fields)] =
      .ok ([name], ["Buffer.from(new Uint32Array([" ++ name ++ "]))"]) := by
  have hts : IdlArg.get_type_string (IdlArg.mk name (Json.obj fields)) = "unknown" := by
    simp [IdlArg.get_type_string, h1, h2]
  have hfind : List.find? (fun arg => arg.name == name)
      [IdlArg.mk name (Json.obj fields)] = some (IdlArg.mk name (Json.obj fields)) := by
    simp [List.find?]
  have hstart : startsWithChar "unknown" 'u' = true := by decide
  have harg : argSeedBuffer [IdlArg.mk name (Json.obj fields)] name =
      "Buffer.from(new Uint32Array([" ++ name ++ "]))" := by
    rw [argSeedBuffer, hfind]
    simp [hts, hstart]
  refine ⟨hts, ?_⟩
  rw [parse_pda_seeds, parsePdaSeedsAux]
  simp only [if_neg (by decide : ¬ ("arg" : String) = "const"),
    if_neg (by decide : ¬ ("arg" : String) = "account"),
    if_pos (rfl : ("arg" : String) = "arg")]
  rw [show (List.contains [] name) = false from rfl]
  simp [parsePdaSeedsAux, harg]

/-- Witness for C10 at the argument name "thing" with an object type
carrying only an unrelated key. -/
theorem c10_unknown_object_type_witness :
    List.lookup "option" [("x", Json.str "y")] = none ∧
    List.lookup "defined" [("x", Json.str "y")] = none ∧
    (IdlArg.get_type_string (IdlArg.mk "thing" (Json.obj [("x", Json.str "y")])) = "unknown" ∧
      parse_pda_seeds [IdlSeed.mk "arg" none (some "thing") none]
          [IdlArg.mk "thing" (Json.obj [("x", Json.str "y")])] =
        .ok (["thing"], ["Buffer.from(new Uint32Array([" ++ "thing" ++ "]))"])) :=
  ⟨rfl, rfl, c10_unknown_object_type "thing" [("x", Json.str "y")] rfl rfl⟩

/-! Claim C5. -/

theorem dedupFirstAux_append (t : List String) :
    ∀ (s seen : List String),
      dedupFirstAux (s ++ t) seen =
        dedupFirstAux s seen ++ dedupFirstAux t (seen ++ dedupFirstAux s seen) := by
  intro s
  induction s with
  | nil => intro seen; simp [dedupFirstAux]
  | cons x xs ih =>
    intro seen
    rw [List.cons_append, dedupFirstAux, dedupFirstAux]
    by_cases hc : seen.contains x = true
    · rw [if_pos hc, if_pos hc, ih]
    · rw [if_neg hc, if_neg hc, ih, List.cons_append, List.append_assoc]
      simp

theorem pdaBlocksAccounts_ok (args : List IdlArg) (accounts : List IdlAccount) :
    ∀ (seen : List String) (blocks : List (String × String)) (seen' : List String),
      pdaBlocksAccounts args accounts seen = .ok (blocks, seen') →
      blocks.map Prod.fst = dedupFirstAux (accountPdaNames accounts) seen ∧
      seen' = seen ++ dedupFirstAux (accountPdaNames accounts) seen := by
  induction accounts with
  | nil =>
    intro seen blocks seen' h
    simp only [pdaBlocksAccounts, Except.ok.injEq, Prod.mk.injEq] at h
    simp [← h.1, ← h.2, accountPdaNames, dedupFirstAux]
  | cons account rest ih =>
    intro seen blocks seen' h
    rw [pdaBlocksAccounts] at h
    cases hpda : account.pda with
    | none =>
      simp only [hpda] at h
      have hn : accountPdaNames (account :: rest) = accountPdaNames rest := by
        simp [accountPdaNames, List.filterMap_cons, hpda]
      rw [hn]
      exact ih seen blocks seen' h
    | some pda =>
      simp only [hpda] at h
      have hn : accountPdaNames (account :: rest) =
          account.name :: accountPdaNames rest := by
        simp [accountPdaNames, List.filterMap_cons, hpda]
      rw [hn, dedupFirstAux]
      by_cases hc : seen.contains account.name = true
      · rw [if_pos hc] at h
        rw [if_pos hc]
        exact ih seen blocks seen' h
      · rw [if_neg hc] at h
        rw [if_neg hc]
        cases hps : parse_pda_seeds pda.seeds args with
        | error e => simp only [hps] at h; exact absurd h (by simp)
        | ok pr =>
          simp only [hps] at h
          obtain ⟨p1, p2⟩ := pr
          cases hrec : pdaBlocksAccounts args rest (seen ++ [account.name]) with
          | error e => simp only [hrec] at h; exact absurd h (by simp)
          | ok br =>
            obtain ⟨blocks1, seen1⟩ := br
            simp only [hrec, Except.ok.injEq, Prod.mk.injEq] at h
            obtain ⟨hb, hs⟩ := h
            obtain ⟨ihb, ihs⟩ := ih (seen ++ [account.name]) blocks1 seen1 hrec
            constructor
            · rw [← hb, List.map_cons, ihb]
            · rw [← hs, ihs, List.append_assoc]
              simp

theorem pdaBlocksInstructions_ok (instructions : List IdlInstruction) :
    ∀ (seen : List String) (blocks : List (String × String)) (seen' : List String),
      pdaBlocksInstructions instructions seen = .ok (blocks, seen') →
      blocks.map Prod.fst =
        dedupFirstAux ((instructions.map
          (fun instruction => accountPdaNames instruction.accounts)).flatten) seen := by
  induction instructions with
  | nil =>
    intro seen blocks seen' h
    simp only [pdaBlocksInstructions, Except.ok.injEq, Prod.mk.injEq] at h
    simp [← h.1, dedupFirstAux]
  | cons instruction rest ih =>
    intro seen blocks seen' h
    rw [pdaBlocksInstructions] at h
    cases ha : pdaBlocksAccounts instruction.args instruction.accounts seen with
    | error e => simp only [ha] at h; exact absurd h (by simp)
    | ok ar =>
      simp only [ha] at h
      obtain ⟨blocks1, seen1⟩ := ar
      cases hr : pdaBlocksInstructions rest seen1 with
      | error e => simp only [hr] at h; exact absurd h (by simp)
      | ok rr =>
        obtain ⟨blocks2, seen2⟩ := rr
        simp only [hr, Except.ok.injEq, Prod.mk.injEq] at h
        obtain ⟨hb, _⟩ := h
        obtain ⟨h1b, h1s⟩ := pdaBlocksAccounts_ok _ _ seen blocks1 seen1 ha
        have h2b := ih seen1 blocks2 seen2 hr
        rw [← hb, List.map_append, h1b, h2b, h1s]
        simp only [List.map_cons, List.flatten_cons, dedupFirstAux_append]

/-- Claim C5: `generate_pda_functions` emits exactly one
address-derivation function per distinct account name carrying a PDA,
even when that name is referenced by several instructions — the emitted
names are the first-occurrence deduplication (keyed by account name
alone) of all PDA-carrying account names across the instruction list,
with no duplicates. -/
theorem c5_pda_dedup_by_name (idl : Idl)
    (h : (generate_pda_functions idl).isOk = true) :
    ∃ blocks, generate_pda_functions idl = .ok blocks ∧
      blocks.map Prod.fst = dedupFirst (pdaNames idl) ∧
      (blocks.map Prod.fst).Nodup := by
  cases hpi : pdaBlocksInstructions idl.instructions [] with
  | error e =>
    rw [generate_pda_functions, hpi] at h
    exact absurd h (by simp [Except.map, Except.isOk, Except.toBool])
  | ok r =>
    obtain ⟨blocks, seen'⟩ := r
    refine ⟨blocks, by rw [generate_pda_functions, hpi]; rfl, ?_, ?_⟩
    · rw [pdaNames, dedupFirst]
      exact pdaBlocksInstructions_ok _ [] blocks seen' hpi
    · rw [pdaBlocksInstructions_ok _ [] blocks seen' hpi]
      exact nodup_dedupFirstAux _ _

/-- Schema for the C5 witness: two instructions, each referencing an
account named "config" carrying the same PDA. -/
def c5Idl : Idl :=
  Idl.mk
    [IdlInstruction.mk "init"
      [IdlAccount.mk "config" none none none none none
        (some (IdlPda.mk [IdlSeed.mk "const" (some [99]) none none]))] [],
     IdlInstruction.mk "update"
      [IdlAccount.mk "config" none none none none none
        (some (IdlPda.mk [IdlSeed.mk "const" (some [99]) none none]))] []]
    none none none none

/-- Witness for C5: the two-instruction schema above yields exactly one
generated PDA function, for the name "config". -/
theorem c5_pda_dedup_by_name_witness :
    (generate_pda_functions c5Idl).isOk = true ∧
    (∃ blocks, generate_pda_functions c5Idl = .ok blocks ∧
      blocks.map Prod.fst = dedupFirst (pdaNames c5Idl) ∧
      (blocks.map Prod.fst).Nodup) :=
  ⟨rfl, c5_pda_dedup_by_name c5Idl rfl⟩

/-! Claim C4. -/

theorem mem_of_mem_dedupFirstAux (l : List String) :
    ∀ (seen : List String) (x : String), x ∈ dedupFirstAux l seen → x ∈ l := by
  induction l with
  | nil => intro seen x h; simp [dedupFirstAux] at h
  | cons y ys ih =>
    intro seen x h
    rw [dedupFirstAux] at h
    by_cases hc : seen.contains y = true
    · rw [if_pos hc] at h
      exact List.mem_cons_of_mem _ (ih seen x h)
    · rw [if_neg hc] at h
      rcases List.mem_cons.mp h with rfl | hm
      · exact List.mem_cons_self _ _
      · exact List.mem_cons_of_mem _ (ih (seen ++ [y]) x hm)

theorem instructionParamsLoop_append (t : List String) :
    ∀ (s acc : List String),
      instructionParamsLoop (s ++ t) acc =
        instructionParamsLoop t (instructionParamsLoop s acc) := by
  intro s
  induction s with
  | nil => intro acc; rfl
  | cons p rest ih =>
    intro acc
    rw [List.cons_append, instructionParamsLoop, instructionParamsLoop]
    by_cases hb : (!(acc.contains p) && p != "creator") = true
    · rw [if_pos hb, if_pos hb, ih]
    · rw [if_neg hb, if_neg hb, ih]

theorem instructionParamsLoop_dedup :
    ∀ (stream acc : List String),
      instructionParamsLoop stream acc =
        acc ++ dedupFirstAux (stream.filter (fun p => p != "creator")) acc := by
  intro stream
  induction stream with
  | nil => intro acc; simp [instructionParamsLoop, dedupFirstAux]
  | cons p rest ih =>
    intro acc
    rw [instructionParamsLoop, List.filter_cons]
    by_cases hb : (p != "creator") = true
    · rw [if_pos hb, dedupFirstAux]
      by_cases hc : acc.contains p = true
      · have hm : p ∈ acc := List.elem_iff.mp hc
        rw [if_pos hc, if_neg (by simp [hb, hm]), ih]
      · have hm : p ∉ acc := fun hx => hc (List.elem_iff.mpr hx)
        rw [if_neg hc, if_pos (by simp [hb, hm]), ih, List.append_assoc]
        simp
    · rw [if_neg hb, if_neg (by simp [hb]), ih]

theorem instructionAllParamsAux_concat (args : List IdlArg)
    (accounts : List IdlAccount) :
    ∀ (acc P : List String),
      instructionAllParamsAux args accounts acc = .ok P →
      ∃ stream, pdaParamsConcatAux args accounts = .ok stream ∧
        P = instructionParamsLoop stream acc := by
  induction accounts with
  | nil =>
    intro acc P h
    simp only [instructionAllParamsAux, Except.ok.injEq] at h
    exact ⟨[], rfl, h.symm⟩
  | cons account rest ih =>
    intro acc P h
    rw [instructionAllParamsAux] at h
    rw [pdaParamsConcatAux]
    cases hpda : account.pda with
    | none =>
      simp only [hpda] at h ⊢
      exact ih acc P h
    | some pda =>
      simp only [hpda] at h ⊢
      cases hps : parse_pda_seeds pda.seeds args with
      | error e => simp only [hps] at h; exact absurd h (by simp)
      | ok pr =>
        obtain ⟨pda_params, bufs⟩ := pr
        simp only [hps] at h ⊢
        obtain ⟨stream, hconcat, hP⟩ := ih _ P h
        refine ⟨pda_params ++ stream, ?_, ?_⟩
        · rw [hconcat]; rfl
        · rw [hP, instructionParamsLoop_append]

/-- Claim C4: for every instruction whose generation succeeds, the
emitted wrapper is named by lower-camel-casing the instruction name and
takes `wallet` first, then the instruction's arguments in schema order,
then the derivation-only parameters in first-seen order, with
parameters already present omitted and the reserved name "creator"
excluded from the appended derivation parameters. -/
theorem c4_wrapper_signature (instruction : IdlInstruction)
    (h : (generate_instruction_function instruction).isOk = true) :
    ∃ code rest extras,
      generate_instruction_function instruction = .ok code ∧
      pdaParamsConcat instruction = .ok extras ∧
      instructionAllParams instruction =
        .ok (instruction.args.map IdlArg.name ++
          dedupFirstAux (extras.filter (fun p => p != "creator"))
            (instruction.args.map IdlArg.name)) ∧
      code = "// " ++ snake_to_camel instruction.name ++ " on-chain\n" ++
        "export const " ++ snake_to_camel instruction.name ++ " = async (wallet" ++
        strConcat ((instruction.args.map IdlArg.name ++
          dedupFirstAux (extras.filter (fun p => p != "creator"))
            (instruction.args.map IdlArg.name)).map (fun param => ", " ++ param)) ++
        ") => \x7b\n" ++ rest ∧
      (dedupFirstAux (extras.filter (fun p => p != "creator"))
        (instruction.args.map IdlArg.name)).Nodup ∧
      ∀ p ∈ dedupFirstAux (extras.filter (fun p => p != "creator"))
          (instruction.args.map IdlArg.name),
        p ∉ instruction.args.map IdlArg.name ∧ p ≠ "creator" := by
  cases hap : instructionAllParams instruction with
  | error e =>
    rw [generate_instruction_function, hap] at h
    exact absurd h (by simp [Except.isOk, Except.toBool])
  | ok all_params =>
    cases hd : pdaDerivationsAux instruction.args instruction.accounts with
    | error e =>
      rw [generate_instruction_function, hap, hd] at h
      exact absurd h (by simp [Except.isOk, Except.toBool])
    | ok dr =>
      obtain ⟨derivation_lines, pda_variables⟩ := dr
      obtain ⟨stream, hconcat, hP⟩ :=
        instructionAllParamsAux_concat instruction.args instruction.accounts
          (instruction.args.map IdlArg.name) all_params hap
      have hall : all_params = instruction.args.map IdlArg.name ++
          dedupFirstAux (stream.filter (fun p => p != "creator"))
            (instruction.args.map IdlArg.name) := by
        rw [hP, instructionParamsLoop_dedup]
      refine ⟨instructionHeaderCode instruction all_params ++
          instructionBodyCode instruction derivation_lines pda_variables,
        instructionBodyCode instruction derivation_lines pda_variables,
        stream, ?_, hconcat, ?_, ?_, ?_, ?_⟩
      · rw [generate_instruction_function]
        simp only [hap, hd]
      · rw [hall]
      · rw [instructionHeaderCode, hall]
      · exact nodup_dedupFirstAux _ _
      · intro p hp
        constructor
        · exact mem_dedupFirstAux _ _ _ hp
        · have hf := mem_of_mem_dedupFirstAux _ _ _ hp
          have := (List.mem_filter.mp hf).2
          simpa [bne_iff_ne] using this

/-- Instruction for the C4 witness: one argument "title" and one
PDA-carrying account whose seeds reference "creator", the argument
"title", and a derivation-only account "owner". -/
def c4Instr : IdlInstruction :=
  IdlInstruction.mk "create_board"
    [IdlAccount.mk "board" none none none none none
      (some (IdlPda.mk
        [IdlSeed.mk "account" none (some "creator") none,
         IdlSeed.mk "arg" none (some "title") none,
         IdlSeed.mk "account" none (some "owner") none]))]
    [IdlArg.mk "title" (Json.str "string")]

/-- Witness for C4 at `c4Instr`: generation succeeds and the parameter
list is "title" (schema argument) followed by "owner" (derivation-only),
with "creator" excluded. -/
theorem c4_wrapper_signature_witness :
    (generate_instruction_function c4Instr).isOk = true ∧
    (∃ code rest extras,
      generate_instruction_function c4Instr = .ok code ∧
      pdaParamsConcat c4Instr = .ok extras ∧
      instructionAllParams c4Instr =
        .ok (c4Instr.args.map IdlArg.name ++
          dedupFirstAux (extras.filter (fun p => p != "creator"))
            (c4Instr.args.map IdlArg.name)) ∧
      code = "// " ++ snake_to_camel c4Instr.name ++ " on-chain\n" ++
        "export const " ++ snake_to_camel c4Instr.name ++ " = async (wallet" ++
        strConcat ((c4Instr.args.map IdlArg.name ++
          dedupFirstAux (extras.filter (fun p => p != "creator"))
            (c4Instr.args.map IdlArg.name)).map (fun param => ", " ++ param)) ++
        ") => \x7b\n" ++ rest ∧
      (dedupFirstAux (extras.filter (fun p => p != "creator"))
        (c4Instr.args.map IdlArg.name)).Nodup ∧
      ∀ p ∈ dedupFirstAux (extras.filter (fun p => p != "creator"))
          (c4Instr.args.map IdlArg.name),
        p ∉ c4Instr.args.map IdlArg.name ∧ p ≠ "creator") :=
  ⟨rfl, c4_wrapper_signature c4Instr rfl⟩

/-! Claim C1. -/

/-- Program metadata used by the C1 example batch. -/
def c1Info : Program := Program.mk "0.1.0" "Prog111" "devnet" none

/-- Schema whose generation succeeds: one instruction with a signer
account and a fixed-address account, no PDA. -/
def c1GoodIdl : Idl :=
  Idl.mk
    [IdlInstruction.mk "do_thing"
      [IdlAccount.mk "payer" none (some true) none none none none,
       IdlAccount.mk "system_program" none none none none
         (some "11111111111111111111111111111111") none]
      [IdlArg.mk "amount" (Json.str "u64")]]
    none none none none

/-- Schema whose generation fails: its only account carries a PDA with a
seed of unknown kind "weird". -/
def c1BadIdl : Idl :=
  Idl.mk
    [IdlInstruction.mk "make_it"
      [IdlAccount.mk "thing" none none none none none
        (some (IdlPda.mk [IdlSeed.mk "weird" none none none]))]
      []]
    none none none none

/-- Counterexample to C1: in a batch whose first program fails seed
resolution, the orchestrator aborts at once — the result carries the
error and an empty list of written files, so the remaining program is
never processed even though its own generation would succeed. -/
theorem c1_counterexample :
    generate_typescript_client
        [("bad", c1Info, c1BadIdl), ("good", c1Info, c1GoodIdl)] =
      ([], some (SolanaPmError.invalidIdl "Unknown seed kind: weird")) ∧
    (generate_ts_code c1GoodIdl "good" c1Info).isOk = true := by
  exact ⟨rfl, rfl⟩

/-- Claim C1 (amended): when generation fails for one program, no client
file is written for that program, but the orchestrator does not proceed
with the remaining programs: it aborts the batch at the failing program,
returning that program's error — only the files of the programs before
the failure are written, and the programs after it are not visited. -/
theorem c1_batch_abort (pre : List (String × Program × Idl)) (pname : String)
    (pinfo : Program) (pidl : Idl) (rest : List (String × Program × Idl))
    (e : SolanaPmError)
    (hpre : ∀ q ∈ pre, (generate_ts_code q.2.2 q.1 q.2.1).isOk = true)
    (hp : generate_ts_code pidl pname pinfo = .error e) :
    generate_typescript_client (pre ++ (pname, pinfo, pidl) :: rest) =
      (pre.filterMap (fun q => (generate_ts_code q.2.2 q.1 q.2.1).toOption.map
        (fun code => (clientFilePath q.1, code))), some e) := by
  induction pre with
  | nil =>
    rw [List.nil_append, generate_typescript_client]
    simp only [hp]
    simp
  | cons q qre ih =>
    have hq := hpre q (List.mem_cons_self _ _)
    rw [List.cons_append, generate_typescript_client]
    cases hg : generate_ts_code q.2.2 q.1 q.2.1 with
    | error e2 =>
      rw [hg] at hq
      exact absurd hq (by simp [Except.isOk, Except.toBool])
    | ok ts_code =>
      simp only [hg]
      rw [ih (fun t ht => hpre t (List.mem_cons_of_mem _ ht))]
      rw [List.filterMap_cons]
      simp only [hg, Except.toOption, Option.map]

/-- Batch prefix for the C1 witness: one program whose generation
succeeds. -/
def c1Pre : List (String × Program × Idl) := [("good", c1Info, c1GoodIdl)]

/-- Witness for the amended C1: with a succeeding program followed by a
failing one, exactly the first program's file is written and the batch
stops with the failing program's error. -/
theorem c1_batch_abort_witness :
    (∀ q ∈ c1Pre, (generate_ts_code q.2.2 q.1 q.2.1).isOk = true) ∧
    generate_ts_code c1BadIdl "bad" c1Info =
      .error (SolanaPmError.invalidIdl "Unknown seed kind: weird") ∧
    generate_typescript_client (c1Pre ++ ("bad", c1Info, c1BadIdl) :: []) =
      (c1Pre.filterMap (fun q => (generate_ts_code q.2.2 q.1 q.2.1).toOption.map
        (fun code => (clientFilePath q.1, code))),
       some (SolanaPmError.invalidIdl "Unknown seed kind: weird")) :=
  ⟨by intro q hq; simp only [c1Pre, List.mem_singleton] at hq; subst hq; rfl,
   rfl,
   c1_batch_abort c1Pre "bad" c1Info c1BadIdl [] _
     (by intro q hq; simp only [c1Pre, List.mem_singleton] at hq; subst hq; rfl) rfl⟩

end Solpm
